import Mathlib

/-!
Shallow embedding of the task-dashboard core from
`src/todo-app/src/components/todo-dashboard.tsx`.

JavaScript strings are modelled through their character lists: the
JS operations used by the source (`toLowerCase`, `trim`, `includes`,
`split`, `replace(/[^a-zA-Z0-9]/g,"")`, string comparison) are defined
below over `List Char` with JS semantics.  The ambient clock used by
`isToday(parseISO d)` and `isBefore(parseISO d, new Date())` is
injected as a `Clock` record of two predicates on the stored
due-date string, per the injected-clock reading of the design.
-/

namespace Todo

/-- JS `a.includes(b)` prefix helper: `b` is a prefix of `a`. -/
def prefixOfB : List Char → List Char → Bool
  | [], _ => true
  | _ :: _, [] => false
  | a :: as, b :: bs => a == b && prefixOfB as bs

/-- JS `String.prototype.includes`: the needle occurs contiguously in the haystack. -/
def infixOfB : List Char → List Char → Bool
  | q, [] => q.isEmpty
  | q, c :: ls => prefixOfB q (c :: ls) || infixOfB q ls

/-- JS `s.includes(q)` on our string model. -/
def includesStr (s q : String) : Bool := infixOfB q.data s.data

/-- JS `toLowerCase`, character by character. -/
def lowerStr (s : String) : String := ⟨s.data.map Char.toLower⟩

/-- JS `trim`: drop whitespace from both ends. -/
def trimStr (s : String) : String :=
  ⟨((s.data.dropWhile Char.isWhitespace).reverse.dropWhile Char.isWhitespace).reverse⟩

/-- Accumulator pass for JS `split` on a one-character separator. -/
def splitOnCharAux (sep : Char) : List Char → List Char → List String
  | [], acc => [⟨acc.reverse⟩]
  | c :: cs, acc =>
    if c == sep then ⟨acc.reverse⟩ :: splitOnCharAux sep cs []
    else splitOnCharAux sep cs (c :: acc)

/-- JS `s.split(sep)` for a one-character separator (the source splits on "," and " "). -/
def splitOnChar (sep : Char) (s : String) : List String := splitOnCharAux sep s.data []

/-- JS `token.replace(/[^a-zA-Z0-9]/g, "")`: keep only ASCII alphanumerics. -/
def stripNonAlnum (s : String) : String := ⟨s.data.filter Char.isAlphanum⟩

/-- JS string comparison key order (`localeCompare` on ISO date strings behaves as
code-unit lexicographic comparison): `charLeB a b` is `a.localeCompare(b) <= 0`. -/
def charLeB : List Char → List Char → Bool
  | [], _ => true
  | _ :: _, [] => false
  | a :: as, b :: bs =>
    if a.toNat < b.toNat then true
    else if b.toNat < a.toNat then false
    else charLeB as bs

/-- String comparison on our model. -/
def strLeB (a b : String) : Bool := charLeB a.data b.data

/-- The four task stages, in source order. -/
inductive Status where
  | backlog
  | inProgress
  | review
  | done
deriving DecidableEq, Repr

/-- The three priority levels. -/
inductive Priority where
  | low
  | medium
  | high
deriving DecidableEq, Repr

/-- The `Task` record of the source (optional fields become `Option`). -/
structure Task where
  id : String
  title : String
  description : Option String
  status : Status
  priority : Priority
  dueDate : Option String
  tags : List String
  createdAt : String
deriving DecidableEq, Repr

/-- The `Filters` record: `none` in `status`/`priority` is the source's `"all"`. -/
inductive Horizon where
  | all
  | today
  | overdue
deriving DecidableEq, Repr

structure Filters where
  query : String
  status : Option Status
  priority : Option Priority
  horizon : Horizon
deriving DecidableEq, Repr

/-- Injected clock: `isTodayOn d` models `isToday(parseISO d)` and
`isBeforeNow d` models `isBefore(parseISO d, new Date())`. -/
structure Clock where
  isTodayOn : String → Bool
  isBeforeNow : String → Bool

/-- JS truthiness of the optional `dueDate` field (absent and `""` are falsy). -/
def dueTruthy : Option String → Bool
  | Option.none => false
  | Option.some s => !s.data.isEmpty

/-- The string handed to `parseISO` when the due date is truthy. -/
def dueVal : Option String → String
  | Option.none => ""
  | Option.some s => s

/-- The `order` array of `nextStatus`/`previousStatus`. -/
def statusOrder : List Status := [Status.backlog, Status.inProgress, Status.review, Status.done]

/-- `nextStatus`: `order[Math.min(order.length - 1, idx + 1)]`. -/
def nextStatus (s : Status) : Status :=
  let idx := statusOrder.indexOf s
  statusOrder.getD (min (statusOrder.length - 1) (idx + 1)) Status.backlog

/-- `previousStatus`: `order[Math.max(0, idx - 1)]` (`Nat` subtraction already clamps at 0). -/
def previousStatus (s : Status) : Status :=
  let idx := statusOrder.indexOf s
  statusOrder.getD (max 0 (idx - 1)) Status.backlog

/-- Position of a stage in the fixed order (for the one-step law). -/
def statusIdx (s : Status) : Nat := statusOrder.indexOf s

/-- The per-task predicate of `filteredTasks`, translated from the source's
early-return chain: each `if` that returns `false` becomes an `if` branch. -/
def taskKeeps (c : Clock) (f : Filters) (task : Task) : Bool :=
  if !f.query.data.isEmpty &&
      (let query := lowerStr f.query
       !includesStr (lowerStr task.title) query &&
       !((task.description.map (fun d => includesStr (lowerStr d) query)).getD false) &&
       !(task.tags.any (fun tag => includesStr (lowerStr tag) query))) then
    false
  else if (match f.status with
           | Option.some s => task.status ≠ s
           | Option.none => false : Bool) then
    false
  else if (match f.priority with
           | Option.some p => task.priority ≠ p
           | Option.none => false : Bool) then
    false
  else if (f.horizon ≠ Horizon.all) && dueTruthy task.dueDate &&
          ((f.horizon = Horizon.today && !c.isTodayOn (dueVal task.dueDate)) ||
           (f.horizon = Horizon.overdue && !c.isBeforeNow (dueVal task.dueDate))) then
    false
  else
    true

/-- `filteredTasks` from the source: `tasks.filter(...)`. -/
def filteredTasks (c : Clock) (f : Filters) (tasks : List Task) : List Task :=
  tasks.filter (taskKeeps c f)

/-- Spec wording: the task passes the text query when the query is empty or the
title, description, or some tag contains it case-insensitively. -/
def specQueryPass (f : Filters) (t : Task) : Bool :=
  f.query.data.isEmpty ||
  includesStr (lowerStr t.title) (lowerStr f.query) ||
  ((t.description.map (fun d => includesStr (lowerStr d) (lowerStr f.query))).getD false) ||
  t.tags.any (fun tag => includesStr (lowerStr tag) (lowerStr f.query))

/-- Spec wording: status passes when the filter value is "all" or matches exactly. -/
def specStatusPass (f : Filters) (t : Task) : Bool :=
  match f.status with
  | Option.none => true
  | Option.some s => t.status = s

/-- Spec wording: priority passes when the filter value is "all" or matches exactly. -/
def specPriorityPass (f : Filters) (t : Task) : Bool :=
  match f.priority with
  | Option.none => true
  | Option.some p => t.priority = p

/-- Spec wording: the due horizon is applied only when the task has a due date;
"today" requires the current calendar day, "overdue" strictly before the current
instant, regardless of the task's status. -/
def specHorizonPass (c : Clock) (f : Filters) (t : Task) : Bool :=
  match f.horizon with
  | Horizon.all => true
  | Horizon.today => !dueTruthy t.dueDate || c.isTodayOn (dueVal t.dueDate)
  | Horizon.overdue => !dueTruthy t.dueDate || c.isBeforeNow (dueVal t.dueDate)

/-- Spec wording: conjunction of all active constraints. -/
def specPasses (c : Clock) (f : Filters) (t : Task) : Bool :=
  specQueryPass f t && specStatusPass f t && specPriorityPass f t && specHorizonPass c f t

/-- `stats.done`: count of tasks with status `done`. -/
def doneCount (L : List Task) : Nat := (L.filter (fun t => t.status = Status.done)).length

/-- The predicate of `stats.overdue`: due date truthy, strictly before now,
and the task is not done. -/
def overduePred (c : Clock) (t : Task) : Bool :=
  if !dueTruthy t.dueDate then false
  else c.isBeforeNow (dueVal t.dueDate) && t.status ≠ Status.done

/-- `stats.overdue`. -/
def overdueCount (c : Clock) (L : List Task) : Nat := (L.filter (overduePred c)).length

/-- JS `Math.round` on a (nonnegative, here) value: floor of the value plus one half. -/
def jsRound (q : ℚ) : ℤ := ⌊q + 1 / 2⌋

/-- `stats.health`: `totals === 0 ? 0 : Math.round((done / totals) * 100)`. -/
def health (L : List Task) : ℤ :=
  if L.length = 0 then 0 else jsRound ((doneCount L : ℚ) / (L.length : ℚ) * 100)

/-- Sort key of `stats.flow`: `a.dueDate || ""`. -/
def flowKey (t : Task) : String := t.dueDate.getD ""

/-- The comparator order of `stats.flow` as a relation (ascending by due-date key;
JS `sort` is stable, so a stable sort under this total preorder models it exactly). -/
def flowLe (a b : Task) : Prop := strLeB (flowKey a) (flowKey b) = true

instance : DecidableRel flowLe := fun a b => by unfold flowLe; infer_instance

/-- The sorted stage of `stats.flow`: done tasks, stably sorted ascending by
due-date key (JS `sort` is stable and this comparator is a total preorder, so
the stable insertion sort models it exactly). -/
def flowSorted (L : List Task) : List Task :=
  (L.filter (fun t => t.status = Status.done)).insertionSort flowLe

/-- `stats.flow`: the sorted done tasks with only the last 3 kept (`slice(-3)`). -/
def flow (L : List Task) : List Task :=
  (flowSorted L).drop ((flowSorted L).length - 3)

/-- `stats.focus`: first in-progress task, else (`??`) first backlog task. -/
def focus (L : List Task) : Option Task :=
  match L.find? (fun t => t.status = Status.inProgress) with
  | Option.some t => Option.some t
  | Option.none => L.find? (fun t => t.status = Status.backlog)

/-- The draft record (`Partial<Task>` plus the separate raw tag string is passed
alongside): only the fields `handleAddTask` reads are modelled. -/
structure Draft where
  title : Option String
  description : Option String
  dueDate : Option String
  priority : Option Priority
  status : Option Status

/-- `handleAddTask`, with the fresh id and current timestamp injected.
Guard: `if (!draft.title?.trim()) return;`.  Note the auto-tag branch splits the
RAW (untrimmed) title on spaces and takes the first two segments. -/
def addTask (freshId now : String) (draft : Draft) (draftTags : String) (tasks : List Task) :
    List Task :=
  match draft.title with
  | Option.none => tasks
  | Option.some rawTitle =>
    if (trimStr rawTitle).data.isEmpty then tasks
    else
      let tagList :=
        if (trimStr draftTags).data.length > 0 then
          ((splitOnChar ',' draftTags).map trimStr).filter (fun s => !s.data.isEmpty)
        else
          (((splitOnChar ' ' rawTitle).take 2).map stripNonAlnum).filter
            (fun s => !s.data.isEmpty)
      let task : Task :=
        { id := freshId
          title := trimStr rawTitle
          description := draft.description.map trimStr
          priority := draft.priority.getD Priority.medium
          status := draft.status.getD Status.backlog
          dueDate := match draft.dueDate with
            | Option.none => Option.none
            | Option.some s => if s.data.isEmpty then Option.none else Option.some s
          tags := tagList
          createdAt := now }
      task :: tasks

/-- `handleDelete`. -/
def handleDelete (id : String) (tasks : List Task) : List Task :=
  tasks.filter (fun t => t.id ≠ id)

/-- `Partial<Task>` as passed to `updateTask`: an absent key is the outer `none`;
for the optional `description`/`dueDate` fields a present-but-`undefined` key is
`some none`. -/
structure Changes where
  id : Option String := Option.none
  title : Option String := Option.none
  description : Option (Option String) := Option.none
  status : Option Status := Option.none
  priority : Option Priority := Option.none
  dueDate : Option (Option String) := Option.none
  tags : Option (List String) := Option.none
  createdAt : Option String := Option.none

/-- JS spread `{ ...task, ...changes }`. -/
def mergeTask (t : Task) (c : Changes) : Task :=
  { id := c.id.getD t.id
    title := c.title.getD t.title
    description := c.description.getD t.description
    status := c.status.getD t.status
    priority := c.priority.getD t.priority
    dueDate := c.dueDate.getD t.dueDate
    tags := c.tags.getD t.tags
    createdAt := c.createdAt.getD t.createdAt }

/-- `updateTask`. -/
def updateTask (id : String) (c : Changes) (tasks : List Task) : List Task :=
  tasks.map (fun t => if t.id = id then mergeTask t c else t)

inductive Direction where
  | forward
  | backward
deriving DecidableEq, Repr

/-- The status step chosen by `toggleStatus`. -/
def stepStatus (dir : Direction) (s : Status) : Status :=
  match dir with
  | Direction.forward => nextStatus s
  | Direction.backward => previousStatus s

/-- `toggleStatus`. -/
def toggleStatus (id : String) (dir : Direction) (tasks : List Task) : List Task :=
  tasks.map (fun t => if t.id = id then { t with status := stepStatus dir t.status } else t)

/-! Concrete fixtures used in scenario statements and witnesses. -/

/-- Default task used by positional lookups in frame statements. -/
def dTask : Task :=
  { id := ""
    title := ""
    description := Option.none
    status := Status.backlog
    priority := Priority.medium
    dueDate := Option.none
    tags := []
    createdAt := "" }

/-- A completed task with a given id and optional due date. -/
def mkDone (i due : String) (hasDue : Bool) : Task :=
  { id := i
    title := i
    description := Option.none
    status := Status.done
    priority := Priority.low
    dueDate := if hasDue then Option.some due else Option.none
    tags := []
    createdAt := "" }

def tJan : Task := mkDone "jan" "2024-01-01" true

def tFeb : Task := mkDone "feb" "2024-02-01" true

def tNone : Task := mkDone "nodue" "" false

/-- The draft of the create scenario, with the padded title from the spec. -/
def dPlan : Draft :=
  { title := Option.some "  Plan launch  "
    description := Option.some ""
    dueDate := Option.some ""
    priority := Option.some Priority.medium
    status := Option.some Status.backlog }

/-- The same draft with the title entered without surrounding whitespace. -/
def dPlanTrim : Draft := { dPlan with title := Option.some "Plan launch" }

/-- A fixed clock for witnesses: nothing is "today", every date is before now. -/
def wClock : Clock := { isTodayOn := fun _ => false, isBeforeNow := fun _ => true }

/-- The identity filters of the spec. -/
def idFilters : Filters :=
  { query := ""
    status := Option.none
    priority := Option.none
    horizon := Horizon.all }

/-! Helper lemmas (shared across the development). -/

/-- `charLeB` is total. -/
theorem charLeB_total (a : List Char) : ∀ b, charLeB a b = true ∨ charLeB b a = true := by
  induction a with
  | nil => intro b; left; rfl
  | cons x xs ih =>
    intro b
    cases b with
    | nil => right; rfl
    | cons y ys =>
      rcases Nat.lt_trichotomy x.toNat y.toNat with h | h | h
      · left; simp [charLeB, h]
      · simp only [charLeB, h, lt_self_iff_false, if_false]
        exact ih ys
      · right; simp [charLeB, h]

/-- `charLeB` is transitive. -/
theorem charLeB_trans (a : List Char) :
    ∀ b c, charLeB a b = true → charLeB b c = true → charLeB a c = true := by
  induction a with
  | nil => intro b c _ _; rfl
  | cons x xs ih =>
    intro b c h1 h2
    cases b with
    | nil => simp [charLeB] at h1
    | cons y ys =>
      cases c with
      | nil => simp [charLeB] at h2
      | cons z zs =>
        simp only [charLeB] at h1 h2 ⊢
        rcases Nat.lt_trichotomy x.toNat y.toNat with hxy | hxy | hxy
        · rcases Nat.lt_trichotomy y.toNat z.toNat with hyz | hyz | hyz
          · simp [show x.toNat < z.toNat by omega]
          · simp [show x.toNat < z.toNat by omega]
          · rw [if_neg (by omega), if_pos hyz] at h2
            exact absurd h2 (by simp)
        · rcases Nat.lt_trichotomy y.toNat z.toNat with hyz | hyz | hyz
          · simp [show x.toNat < z.toNat by omega]
          · rw [if_neg (by omega), if_neg (by omega)] at h1 h2 ⊢
            exact ih ys zs h1 h2
          · rw [if_neg (by omega), if_pos hyz] at h2
            exact absurd h2 (by simp)
        · rw [if_neg (by omega), if_pos hxy] at h1
          exact absurd h1 (by simp)

instance : IsTotal Task flowLe :=
  ⟨fun a b => charLeB_total (flowKey a).data (flowKey b).data⟩

instance : IsTrans Task flowLe :=
  ⟨fun a b c h1 h2 => charLeB_trans (flowKey a).data (flowKey b).data (flowKey c).data h1 h2⟩

/-- The source's early-return filter predicate agrees clause-for-clause with the
spec's conjunction of constraints. -/
theorem taskKeeps_eq_specPasses (c : Clock) (f : Filters) (t : Task) :
    taskKeeps c f t = specPasses c f t := by
  rcases f with ⟨q, st, pr, hz⟩
  unfold taskKeeps specPasses specQueryPass specStatusPass specPriorityPass specHorizonPass
  dsimp only
  cases st with
  | none =>
    cases pr with
    | none =>
      cases hz <;>
      · simp only [decide_not]
        generalize q.data.isEmpty = b1
        generalize includesStr (lowerStr t.title) (lowerStr q) = b2
        generalize (t.description.map fun d => includesStr (lowerStr d) (lowerStr q)).getD false = b3
        generalize t.tags.any (fun tag => includesStr (lowerStr tag) (lowerStr q)) = b4
        generalize dueTruthy t.dueDate = b5
        generalize c.isTodayOn (dueVal t.dueDate) = b6
        generalize c.isBeforeNow (dueVal t.dueDate) = b7
        revert b1 b2 b3 b4 b5 b6 b7
        decide
    | some p =>
      cases hz <;>
      · simp only [decide_not]
        generalize q.data.isEmpty = b1
        generalize includesStr (lowerStr t.title) (lowerStr q) = b2
        generalize (t.description.map fun d => includesStr (lowerStr d) (lowerStr q)).getD false = b3
        generalize t.tags.any (fun tag => includesStr (lowerStr tag) (lowerStr q)) = b4
        generalize dueTruthy t.dueDate = b5
        generalize c.isTodayOn (dueVal t.dueDate) = b6
        generalize c.isBeforeNow (dueVal t.dueDate) = b7
        generalize decide (t.priority = p) = b9
        revert b1 b2 b3 b4 b5 b6 b7 b9
        decide
  | some s =>
    cases pr with
    | none =>
      cases hz <;>
      · simp only [decide_not]
        generalize q.data.isEmpty = b1
        generalize includesStr (lowerStr t.title) (lowerStr q) = b2
        generalize (t.description.map fun d => includesStr (lowerStr d) (lowerStr q)).getD false = b3
        generalize t.tags.any (fun tag => includesStr (lowerStr tag) (lowerStr q)) = b4
        generalize dueTruthy t.dueDate = b5
        generalize c.isTodayOn (dueVal t.dueDate) = b6
        generalize c.isBeforeNow (dueVal t.dueDate) = b7
        generalize decide (t.status = s) = b8
        revert b1 b2 b3 b4 b5 b6 b7 b8
        decide
    | some p =>
      cases hz <;>
      · simp only [decide_not]
        generalize q.data.isEmpty = b1
        generalize includesStr (lowerStr t.title) (lowerStr q) = b2
        generalize (t.description.map fun d => includesStr (lowerStr d) (lowerStr q)).getD false = b3
        generalize t.tags.any (fun tag => includesStr (lowerStr tag) (lowerStr q)) = b4
        generalize dueTruthy t.dueDate = b5
        generalize c.isTodayOn (dueVal t.dueDate) = b6
        generalize c.isBeforeNow (dueVal t.dueDate) = b7
        generalize decide (t.status = s) = b8
        generalize decide (t.priority = p) = b9
        revert b1 b2 b3 b4 b5 b6 b7 b8 b9
        decide


/-- Filters selecting the overdue horizon, for witnesses. -/
def ovFilters : Filters := { idFilters with horizon := Horizon.overdue }

/-- C1: for every task list and filters, the filter keeps exactly the tasks that
pass all active constraints as the spec words them (empty-query pass,
case-insensitive containment in title, description or a tag, all-or-exact status
and priority, due horizon applied only to tasks with a truthy due date); and the
overdue horizon, unlike `stats.overdue`, ignores the task's status: a done task
never counts as overdue in the stats, yet passes the overdue-horizon clause
whenever its due date is strictly before the current instant. -/
theorem filter_engine_spec :
    (∀ (c : Clock) (f : Filters) (L : List Task),
      filteredTasks c f L = L.filter (specPasses c f)) ∧
    (∀ (c : Clock) (t : Task), t.status = Status.done → overduePred c t = false) ∧
    (∀ (c : Clock) (f : Filters) (t : Task), f.horizon = Horizon.overdue →
      dueTruthy t.dueDate = true → c.isBeforeNow (dueVal t.dueDate) = true →
      specHorizonPass c f t = true) := by
  refine ⟨?_, ?_, ?_⟩
  · intro c f L
    exact List.filter_congr fun t _ => taskKeeps_eq_specPasses c f t
  · intro c t h
    unfold overduePred
    cases hd : dueTruthy t.dueDate <;> simp [hd, h]
  · intro c f t hh hd hb
    unfold specHorizonPass
    rw [hh, hd, hb]
    simp

theorem filter_engine_spec_witness :
    filteredTasks wClock idFilters [tJan] = List.filter (specPasses wClock idFilters) [tJan] ∧
    overduePred wClock tJan = false ∧
    specHorizonPass wClock ovFilters tJan = true :=
  ⟨filter_engine_spec.1 wClock idFilters [tJan],
   filter_engine_spec.2.1 wClock tJan (by decide),
   filter_engine_spec.2.2 wClock ovFilters tJan rfl (by decide) (by decide)⟩

/-- C4: the forward and backward steps are total on the four stages and move
exactly one position in the fixed order, clamped at the ends (`Nat` subtraction
clamps `idx - 1` at 0, `min` clamps `idx + 1` at the terminal index); forward of
done is done, backward of backlog is backlog, advance-then-retreat at backlog
yields backlog, and the interior stage in-progress round-trips exactly through
review. -/
theorem status_progression_spec :
    (∀ s : Status, statusIdx (nextStatus s) = min (statusOrder.length - 1) (statusIdx s + 1)) ∧
    (∀ s : Status, statusIdx (previousStatus s) = statusIdx s - 1) ∧
    nextStatus Status.done = Status.done ∧
    previousStatus Status.backlog = Status.backlog ∧
    previousStatus (nextStatus Status.backlog) = Status.backlog ∧
    nextStatus Status.inProgress = Status.review ∧
    previousStatus (nextStatus Status.inProgress) = Status.inProgress :=
  ⟨fun s => by cases s <;> decide, fun s => by cases s <;> decide,
   by decide, by decide, by decide, by decide, by decide⟩

/-- C5: the filter result is always a subsequence of the input in the original
order, and the identity filters (empty query, all statuses, all priorities, any
horizon) return the list unchanged. -/
theorem filter_sublist_and_identity :
    (∀ (c : Clock) (f : Filters) (L : List Task), (filteredTasks c f L).Sublist L) ∧
    (∀ (c : Clock) (L : List Task), filteredTasks c idFilters L = L) := by
  constructor
  · intro c f L
    exact List.filter_sublist L
  · intro c L
    exact List.filter_eq_self.mpr fun t _ => rfl

/-- C3: `stats.flow` contains only done tasks, has length at most 3, is sorted
ascending by due-date key (a task with no due date keys as the empty string and
so sorts first), and is the suffix of the sorted done tasks keeping the last 3
in order; in particular the three done tasks with due dates none, 2024-01-01
and 2024-02-01 yield the flow [no-due-date, 2024-01-01, 2024-02-01]. -/
theorem flow_spec :
    (∀ (L : List Task) (t : Task), t ∈ flow L → t.status = Status.done) ∧
    (∀ L : List Task, (flow L).length ≤ 3) ∧
    (∀ L : List Task, (flow L).Sorted flowLe) ∧
    (∀ L : List Task, flow L <:+ flowSorted L) ∧
    flow [tJan, tFeb, tNone] = [tNone, tJan, tFeb] := by
  refine ⟨?_, ?_, ?_, ?_, by decide⟩
  · intro L t ht
    unfold flow flowSorted at ht
    have h1 := List.mem_of_mem_drop ht
    have h2 := (List.perm_insertionSort flowLe _).mem_iff.mp h1
    exact of_decide_eq_true (List.mem_filter.mp h2).2
  · intro L
    unfold flow
    rw [List.length_drop]
    omega
  · intro L
    unfold flow flowSorted
    exact List.Pairwise.sublist (List.drop_sublist _ _) (List.sorted_insertionSort flowLe _)
  · intro L
    exact List.drop_suffix _ _

theorem flow_spec_witness : tNone.status = Status.done ∧ (flow [tNone]).length ≤ 3 :=
  ⟨flow_spec.1 [tNone] tNone (by decide), flow_spec.2.1 [tNone]⟩

/-- C6: `stats.health` is 0 on the empty list, always lies in [0, 100], and on a
non-empty list equals the done count over the total count times 100, rounded to
the nearest integer percent (JS `Math.round`, half rounding up). -/
theorem health_spec :
    health [] = 0 ∧
    (∀ L : List Task, 0 ≤ health L ∧ health L ≤ 100) ∧
    (∀ L : List Task, L ≠ [] →
      health L = jsRound ((doneCount L : ℚ) / (L.length : ℚ) * 100)) := by
  refine ⟨rfl, ?_, ?_⟩
  · intro L
    unfold health
    by_cases h : L.length = 0
    · simp [h]
    · rw [if_neg h]
      have hlen : 0 < (L.length : ℚ) := by
        exact_mod_cast Nat.pos_of_ne_zero h
      have hdone : (doneCount L : ℚ) ≤ (L.length : ℚ) := by
        have := List.length_filter_le (fun t => decide (t.status = Status.done)) L
        exact_mod_cast this
      have hq0 : 0 ≤ (doneCount L : ℚ) / (L.length : ℚ) * 100 := by positivity
      have hq100 : (doneCount L : ℚ) / (L.length : ℚ) * 100 ≤ 100 := by
        have h1 : (doneCount L : ℚ) / (L.length : ℚ) ≤ 1 := (div_le_one hlen).mpr hdone
        nlinarith
      unfold jsRound
      constructor
      · exact Int.floor_nonneg.mpr (by linarith)
      · have h1 : ⌊(doneCount L : ℚ) / (L.length : ℚ) * 100 + 1 / 2⌋ ≤ ⌊(100 : ℚ) + 1 / 2⌋ :=
          Int.floor_mono (by linarith)
        have h2 : ⌊(100 : ℚ) + 1 / 2⌋ = 100 := by norm_num
        omega
  · intro L hL
    unfold health
    rw [if_neg fun h => hL (List.length_eq_zero.mp h)]

theorem health_spec_witness :
    health [tJan] = jsRound ((doneCount [tJan] : ℚ) / (([tJan] : List Task).length : ℚ) * 100) :=
  health_spec.2.2 [tJan] (by decide)

/-- C7: `stats.focus` is the first task with status in-progress; when no task is
in-progress it is the first task with status backlog; when neither exists it is
absent.  "First" is stated by splitting the list around the picked task with no
earlier match. -/
theorem focus_spec :
    (∀ L : List Task, (focus L = Option.none ↔
      ∀ t ∈ L, t.status ≠ Status.inProgress ∧ t.status ≠ Status.backlog)) ∧
    (∀ (L : List Task) (t : Task), focus L = Option.some t ↔
      ((t.status = Status.inProgress ∧ ∃ l1 l2, L = l1 ++ t :: l2 ∧
          ∀ x ∈ l1, x.status ≠ Status.inProgress) ∨
       ((∀ x ∈ L, x.status ≠ Status.inProgress) ∧ t.status = Status.backlog ∧
        ∃ l1 l2, L = l1 ++ t :: l2 ∧ ∀ x ∈ l1, x.status ≠ Status.backlog))) := by
  constructor
  · intro L
    unfold focus
    cases h : L.find? (fun t => t.status = Status.inProgress) with
    | some u =>
      simp only
      constructor
      · intro hc
        exact absurd hc (by simp)
      · intro hall
        have hu := List.find?_some h
        have humem := List.mem_of_find?_eq_some h
        exact absurd (of_decide_eq_true hu) (hall u humem).1
    | none =>
      simp only
      have hnone := List.find?_eq_none.mp h
      constructor
      · intro h2 t ht
        have h2' := List.find?_eq_none.mp h2 t ht
        exact ⟨fun hc => hnone t ht (decide_eq_true hc), fun hc => h2' (decide_eq_true hc)⟩
      · intro hall
        refine List.find?_eq_none.mpr fun x hx hc => ?_
        exact (hall x hx).2 (of_decide_eq_true hc)
  · intro L t
    unfold focus
    cases h : L.find? (fun t => t.status = Status.inProgress) with
    | some u =>
      simp only [Option.some.injEq]
      constructor
      · rintro rfl
        left
        obtain ⟨hp, as, bs, heq, hall⟩ := List.find?_eq_some.mp h
        refine ⟨of_decide_eq_true hp, as, bs, heq, fun x hx => ?_⟩
        have := hall x hx
        simpa using this
      · rintro (⟨hip, l1, l2, heq, hall⟩ | ⟨hnone, _⟩)
        · have ht : L.find? (fun t => t.status = Status.inProgress) = Option.some t :=
            List.find?_eq_some.mpr ⟨decide_eq_true hip, l1, l2, heq,
              fun a ha => by simp [hall a ha]⟩
          rw [h] at ht
          exact (Option.some.injEq _ _).mp ht
        · have hu : u.status = Status.inProgress := by simpa using List.find?_some h
          exact absurd hu (hnone u (List.mem_of_find?_eq_some h))
    | none =>
      simp only
      have hnoip : ∀ x ∈ L, x.status ≠ Status.inProgress := fun x hx hc =>
        List.find?_eq_none.mp h x hx (decide_eq_true hc)
      constructor
      · intro h2
        right
        obtain ⟨hp, as, bs, heq, hall⟩ := List.find?_eq_some.mp h2
        refine ⟨hnoip, of_decide_eq_true hp, as, bs, heq, fun x hx => ?_⟩
        have := hall x hx
        simpa using this
      · rintro (⟨hip, l1, l2, heq, hall⟩ | ⟨_, hb, l1, l2, heq, hall⟩)
        · have htL : t ∈ L := by rw [heq]; simp
          exact absurd hip (hnoip t htL)
        · exact List.find?_eq_some.mpr ⟨decide_eq_true hb, l1, l2, heq,
            fun a ha => by simp [hall a ha]⟩

theorem focus_spec_witness : focus [tJan] = Option.none :=
  (focus_spec.1 [tJan]).mpr (by decide)

/-- Unfolding `addTask` when the guard accepts: the new task is prepended. -/
theorem addTask_pos (fid now : String) (draft : Draft) (dt : String) (L : List Task)
    (rawTitle : String) (h1 : draft.title = Option.some rawTitle)
    (h2 : (trimStr rawTitle).data.isEmpty = false) :
    addTask fid now draft dt L =
      { id := fid
        title := trimStr rawTitle
        description := draft.description.map trimStr
        priority := draft.priority.getD Priority.medium
        status := draft.status.getD Status.backlog
        dueDate := match draft.dueDate with
          | Option.none => Option.none
          | Option.some s => if s.data.isEmpty then Option.none else Option.some s
        tags := if (trimStr dt).data.length > 0 then
            ((splitOnChar ',' dt).map trimStr).filter (fun s => !s.data.isEmpty)
          else
            (((splitOnChar ' ' rawTitle).take 2).map stripNonAlnum).filter
              (fun s => !s.data.isEmpty)
        createdAt := now } :: L := by
  unfold addTask
  rw [h1]
  simp [h2]

/-- C8: invalid inputs are silently absorbed: create with a missing title or a
title that trims to empty leaves the list unchanged, and delete, update, advance
or retreat aimed at an identifier no task carries returns the list unchanged,
same contents and order, with no error path. -/
theorem invalid_input_noop :
    (∀ (fid now : String) (draft : Draft) (dt : String) (L : List Task),
      draft.title = Option.none → addTask fid now draft dt L = L) ∧
    (∀ (fid now : String) (draft : Draft) (dt : String) (L : List Task) (s : String),
      draft.title = Option.some s → (trimStr s).data.isEmpty = true →
      addTask fid now draft dt L = L) ∧
    (∀ (tid : String) (L : List Task), (∀ t ∈ L, t.id ≠ tid) → handleDelete tid L = L) ∧
    (∀ (tid : String) (ch : Changes) (L : List Task), (∀ t ∈ L, t.id ≠ tid) →
      updateTask tid ch L = L) ∧
    (∀ (tid : String) (dir : Direction) (L : List Task), (∀ t ∈ L, t.id ≠ tid) →
      toggleStatus tid dir L = L) := by
  refine ⟨?_, ?_, ?_, ?_, ?_⟩
  · intro fid now draft dt L h
    unfold addTask
    rw [h]
  · intro fid now draft dt L s h1 h2
    unfold addTask
    rw [h1]
    simp [h2]
  · intro tid L h
    unfold handleDelete
    exact List.filter_eq_self.mpr fun t ht => decide_eq_true (h t ht)
  · intro tid ch L h
    unfold updateTask
    have h1 : L.map (fun t => if t.id = tid then mergeTask t ch else t) =
        L.map (fun t => t) := List.map_congr_left fun t ht => if_neg (h t ht)
    rw [h1]
    exact List.map_id L
  · intro tid dir L h
    unfold toggleStatus
    have h1 : L.map (fun t => if t.id = tid then { t with status := stepStatus dir t.status }
        else t) = L.map (fun t => t) := List.map_congr_left fun t ht => if_neg (h t ht)
    rw [h1]
    exact List.map_id L

/-- The all-empty draft for witnesses. -/
def dEmpty : Draft :=
  { title := Option.none
    description := Option.none
    dueDate := Option.none
    priority := Option.none
    status := Option.none }

theorem invalid_input_noop_witness :
    addTask "i" "n" dEmpty "" [tJan] = [tJan] ∧
    addTask "i" "n" { dEmpty with title := Option.some "   " } "" [tJan] = [tJan] ∧
    handleDelete "zz" [tJan] = [tJan] ∧
    updateTask "zz" {} [tJan] = [tJan] ∧
    toggleStatus "zz" Direction.forward [tJan] = [tJan] :=
  ⟨invalid_input_noop.1 "i" "n" dEmpty "" [tJan] rfl,
   invalid_input_noop.2.1 "i" "n" _ "" [tJan] "   " rfl (by decide),
   invalid_input_noop.2.2.1 "zz" [tJan] (by decide),
   invalid_input_noop.2.2.2.1 "zz" {} [tJan] (by decide),
   invalid_input_noop.2.2.2.2 "zz" Direction.forward [tJan] (by decide)⟩

/-- C2 counterexample: creating from the padded title of the scenario stores the
trimmed title "Plan launch" but auto-tags `[]`, not `["Plan","launch"]` — the
source derives tags from the first two space-split segments of the RAW title,
which for a padded title are both empty and are dropped. -/
theorem create_scenario_counterexample :
    (addTask "id0" "t0" dPlan "" []).map Task.title = ["Plan launch"] ∧
    (addTask "id0" "t0" dPlan "" []).map Task.tags = [[]] ∧
    (addTask "id0" "t0" dPlan "" []).map Task.tags ≠ [["Plan", "launch"]] := by
  decide

/-- Shared: the overdue-stat predicate rejects a task with no due date. -/
theorem overduePred_of_no_due (c : Clock) (t : Task) (h : t.dueDate = Option.none) :
    overduePred c t = false := by
  unfold overduePred
  rw [h]
  rfl

/-- Shared: the spec horizon clause passes any task with no due date. -/
theorem specHorizonPass_of_no_due (c : Clock) (f : Filters) (t : Task)
    (h : t.dueDate = Option.none) : specHorizonPass c f t = true := by
  rcases f with ⟨q, st, pr, hz⟩
  cases hz <;> simp [specHorizonPass, dueTruthy, h]

/-- C2 (amended): create with a title that is non-empty after trimming prepends
a task carrying the injected fresh identifier and timestamp and the trimmed
title; when the raw tag string is blank the tags are the first two
space-separated segments of the UNTRIMMED title, each stripped to its
alphanumerics, empties dropped — so the padded title "  Plan launch  " stores
title "Plan launch" with auto-tags [], while the unpadded title "Plan launch"
yields auto-tags ["Plan", "launch"]. -/
theorem create_spec_amended :
    (∀ (fid now : String) (draft : Draft) (dt : String) (L : List Task) (rawTitle : String),
      draft.title = Option.some rawTitle → (trimStr rawTitle).data.isEmpty = false →
      ∃ t, addTask fid now draft dt L = t :: L ∧ t.id = fid ∧ t.createdAt = now ∧
        t.title = trimStr rawTitle ∧
        ((trimStr dt).data.isEmpty = true →
          t.tags = (((splitOnChar ' ' rawTitle).take 2).map stripNonAlnum).filter
            (fun s => !s.data.isEmpty))) ∧
    (addTask "id0" "t0" dPlan "" []).map (fun t => (t.title, t.tags)) =
      [("Plan launch", [])] ∧
    (addTask "id0" "t0" dPlanTrim "" []).map (fun t => (t.title, t.tags)) =
      [("Plan launch", ["Plan", "launch"])] := by
  refine ⟨?_, by decide, by decide⟩
  intro fid now draft dt L rawTitle h1 h2
  refine ⟨_, addTask_pos fid now draft dt L rawTitle h1 h2, rfl, rfl, rfl, ?_⟩
  intro hdt
  have hnil : (trimStr dt).data = [] := by simpa using hdt
  simp [hnil]

theorem create_spec_amended_witness :
    ∃ t, addTask "id0" "t0" dPlanTrim "" [] = t :: [] ∧ t.id = "id0" ∧ t.createdAt = "t0" ∧
      t.title = trimStr "Plan launch" ∧
      ((trimStr "").data.isEmpty = true →
        t.tags = (((splitOnChar ' ' "Plan launch").take 2).map stripNonAlnum).filter
          (fun s => !s.data.isEmpty)) :=
  create_spec_amended.1 "id0" "t0" dPlanTrim "" [] "Plan launch" rfl (by decide)

/-- C10: a task created from a draft whose due-date string is empty (or absent)
stores no due date at all; a task with no due date is never counted by
`stats.overdue` and is never excluded by the "today" or "overdue" horizon
(both the spec-level horizon clause and the source filter predicate, which then
degenerates to the query/status/priority conjunction). -/
theorem empty_due_date_spec :
    (∀ (fid now : String) (draft : Draft) (dt : String) (L : List Task) (rawTitle : String),
      draft.title = Option.some rawTitle → (trimStr rawTitle).data.isEmpty = false →
      (draft.dueDate = Option.some "" ∨ draft.dueDate = Option.none) →
      ∃ t, addTask fid now draft dt L = t :: L ∧ t.dueDate = Option.none) ∧
    (∀ (c : Clock) (t : Task), t.dueDate = Option.none → overduePred c t = false) ∧
    (∀ (c : Clock) (t : Task) (L : List Task), t.dueDate = Option.none →
      overdueCount c (t :: L) = overdueCount c L) ∧
    (∀ (c : Clock) (f : Filters) (t : Task), t.dueDate = Option.none →
      specHorizonPass c f t = true) ∧
    (∀ (c : Clock) (f : Filters) (t : Task), t.dueDate = Option.none →
      taskKeeps c f t = (specQueryPass f t && specStatusPass f t && specPriorityPass f t)) := by
  refine ⟨?_, overduePred_of_no_due, ?_, specHorizonPass_of_no_due, ?_⟩
  · intro fid now draft dt L rawTitle h1 h2 hdd
    refine ⟨_, addTask_pos fid now draft dt L rawTitle h1 h2, ?_⟩
    rcases hdd with h | h <;> simp [h]
  · intro c t L h
    have hp : overduePred c t = false := overduePred_of_no_due c t h
    unfold overdueCount
    simp [List.filter_cons, hp]
  · intro c f t h
    rw [taskKeeps_eq_specPasses]
    unfold specPasses
    rw [specHorizonPass_of_no_due c f t h, Bool.and_true]

theorem empty_due_date_spec_witness :
    (∃ t, addTask "id0" "t0" dPlan "" [] = t :: [] ∧ t.dueDate = Option.none) ∧
    overduePred wClock tNone = false ∧
    overdueCount wClock [tNone] = overdueCount wClock [] ∧
    specHorizonPass wClock ovFilters tNone = true ∧
    taskKeeps wClock ovFilters tNone =
      (specQueryPass ovFilters tNone && specStatusPass ovFilters tNone &&
        specPriorityPass ovFilters tNone) :=
  ⟨empty_due_date_spec.1 "id0" "t0" dPlan "" [] "  Plan launch  " rfl (by decide) (Or.inl rfl),
   empty_due_date_spec.2.1 wClock tNone (by decide),
   empty_due_date_spec.2.2.1 wClock tNone [] (by decide),
   empty_due_date_spec.2.2.2.1 wClock ovFilters tNone (by decide),
   empty_due_date_spec.2.2.2.2 wClock ovFilters tNone (by decide)⟩

/-- Positional lookup through `List.map`, below the length. -/
theorem map_getD_lt (f : Task → Task) (L : List Task) (i : Nat) (h : i < L.length) :
    (L.map f).getD i dTask = f (L.getD i dTask) := by
  simp [List.getD_eq_getElem?_getD, List.getElem?_map, List.getElem?_eq_getElem h]

/-- C9: advance/retreat keep the list length and order, change only the status
field of the task with the given identifier, and leave every other task
untouched; update merges only into the task with the given identifier, leaving
every other task and the order unchanged, and the merge preserves every field
whose change is not supplied while installing every field that is. -/
theorem mutation_frame_spec :
    (∀ (tid : String) (dir : Direction) (L : List Task),
      (toggleStatus tid dir L).length = L.length) ∧
    (∀ (tid : String) (ch : Changes) (L : List Task),
      (updateTask tid ch L).length = L.length) ∧
    (∀ (tid : String) (dir : Direction) (L : List Task) (i : Nat), i < L.length →
      ((toggleStatus tid dir L).getD i dTask).id = (L.getD i dTask).id ∧
      ((toggleStatus tid dir L).getD i dTask).title = (L.getD i dTask).title ∧
      ((toggleStatus tid dir L).getD i dTask).description = (L.getD i dTask).description ∧
      ((toggleStatus tid dir L).getD i dTask).priority = (L.getD i dTask).priority ∧
      ((toggleStatus tid dir L).getD i dTask).dueDate = (L.getD i dTask).dueDate ∧
      ((toggleStatus tid dir L).getD i dTask).tags = (L.getD i dTask).tags ∧
      ((toggleStatus tid dir L).getD i dTask).createdAt = (L.getD i dTask).createdAt ∧
      ((L.getD i dTask).id = tid →
        ((toggleStatus tid dir L).getD i dTask).status =
          stepStatus dir (L.getD i dTask).status) ∧
      ((L.getD i dTask).id ≠ tid →
        (toggleStatus tid dir L).getD i dTask = L.getD i dTask)) ∧
    (∀ (tid : String) (ch : Changes) (L : List Task) (i : Nat), i < L.length →
      (((L.getD i dTask).id ≠ tid → (updateTask tid ch L).getD i dTask = L.getD i dTask) ∧
       ((L.getD i dTask).id = tid →
         (updateTask tid ch L).getD i dTask = mergeTask (L.getD i dTask) ch))) ∧
    (∀ (t : Task) (ch : Changes),
      (ch.id = Option.none → (mergeTask t ch).id = t.id) ∧
      (ch.title = Option.none → (mergeTask t ch).title = t.title) ∧
      (ch.description = Option.none → (mergeTask t ch).description = t.description) ∧
      (ch.status = Option.none → (mergeTask t ch).status = t.status) ∧
      (ch.priority = Option.none → (mergeTask t ch).priority = t.priority) ∧
      (ch.dueDate = Option.none → (mergeTask t ch).dueDate = t.dueDate) ∧
      (ch.tags = Option.none → (mergeTask t ch).tags = t.tags) ∧
      (ch.createdAt = Option.none → (mergeTask t ch).createdAt = t.createdAt) ∧
      (∀ v, ch.title = Option.some v → (mergeTask t ch).title = v) ∧
      (∀ v, ch.tags = Option.some v → (mergeTask t ch).tags = v)) := by
  refine ⟨?_, ?_, ?_, ?_, ?_⟩
  · intro tid dir L
    unfold toggleStatus
    exact List.length_map L _
  · intro tid ch L
    unfold updateTask
    exact List.length_map L _
  · intro tid dir L i h
    unfold toggleStatus
    rw [map_getD_lt _ L i h]
    generalize L.getD i dTask = t0
    by_cases ht : t0.id = tid
    · simp [ht]
    · simp [ht]
  · intro tid ch L i h
    unfold updateTask
    rw [map_getD_lt _ L i h]
    generalize L.getD i dTask = t0
    by_cases ht : t0.id = tid
    · simp [ht]
    · simp [ht]
  · intro t ch
    refine ⟨?_, ?_, ?_, ?_, ?_, ?_, ?_, ?_, ?_, ?_⟩ <;>
      first
      | (intro h; simp [mergeTask, h])
      | (intro v h; simp [mergeTask, h])

/-- Changes record supplying only new tags, for witnesses. -/
def wCh : Changes := { tags := Option.some ["x"] }

theorem mutation_frame_spec_witness :
    ((toggleStatus "jan" Direction.forward [tJan]).getD 0 dTask).title =
      (([tJan] : List Task).getD 0 dTask).title ∧
    ((toggleStatus "jan" Direction.forward [tJan]).getD 0 dTask).status =
      stepStatus Direction.forward (([tJan] : List Task).getD 0 dTask).status ∧
    (updateTask "zz" wCh [tJan]).getD 0 dTask = ([tJan] : List Task).getD 0 dTask ∧
    (mergeTask tJan wCh).title = tJan.title ∧
    (mergeTask tJan wCh).tags = ["x"] := by
  have h1 := mutation_frame_spec.2.2.1 "jan" Direction.forward [tJan] 0 (by decide)
  have h2 := mutation_frame_spec.2.2.2.1 "zz" wCh [tJan] 0 (by decide)
  have h3 := mutation_frame_spec.2.2.2.2 tJan wCh
  exact ⟨h1.2.1, h1.2.2.2.2.2.2.2.1 (by decide), h2.1 (by decide),
    h3.2.1 rfl, h3.2.2.2.2.2.2.2.2.2 ["x"] rfl⟩

end Todo
